import Mathlib

/-!
# Verification of the Nexa booking service core (`app.py`)

This file gives a shallow embedding of the booking-slot conflict and
status-transition core of the Nexa lead/booking service, and proves (or
refutes) the specification claims about it.

The ledger is modelled exactly as the CSV layer of the source: a list of raw
string rows.  Bookings are the dictionaries produced by `read_all_leads`.
Machine-level collaborators from the Python standard library
(`hashlib.sha256`, `hmac`) are implemented concretely over `Nat` byte lists so
that every definition is executable.
-/

namespace Nexa

/-! ## SHA-256 (model of `hashlib.sha256`), over byte lists -/

/-- 2^32, the word modulus of SHA-256. -/
def M32 : Nat := 4294967296

/-- Addition modulo 2^32. -/
def add32 (a b : Nat) : Nat := (a + b) % M32

/-- Right rotation of a 32-bit word. -/
def rotr32 (x k : Nat) : Nat := ((x >>> k) ||| (x <<< (32 - k))) % M32

/-- Bitwise complement of a 32-bit word. -/
def not32 (x : Nat) : Nat := x ^^^ 4294967295

def ch32 (x y z : Nat) : Nat := (x &&& y) ^^^ (not32 x &&& z)

def maj32 (x y z : Nat) : Nat := (x &&& y) ^^^ (x &&& z) ^^^ (y &&& z)

def bsig0 (x : Nat) : Nat := rotr32 x 2 ^^^ rotr32 x 13 ^^^ rotr32 x 22

def bsig1 (x : Nat) : Nat := rotr32 x 6 ^^^ rotr32 x 11 ^^^ rotr32 x 25

def ssig0 (x : Nat) : Nat := rotr32 x 7 ^^^ rotr32 x 18 ^^^ (x >>> 3)

def ssig1 (x : Nat) : Nat := rotr32 x 17 ^^^ rotr32 x 19 ^^^ (x >>> 10)

/-- The SHA-256 round constants. -/
def K256 : List Nat := [
  1116352408, 1899447441, 3049323471, 3921009573, 961987163,
  1508970993, 2453635748, 2870763221, 3624381080, 310598401,
  607225278, 1426881987, 1925078388, 2162078206, 2614888103,
  3248222580, 3835390401, 4022224774, 264347078, 604807628,
  770255983, 1249150122, 1555081692, 1996064986, 2554220882,
  2821834349, 2952996808, 3210313671, 3336571891, 3584528711,
  113926993, 338241895, 666307205, 773529912, 1294757372,
  1396182291, 1695183700, 1986661051, 2177026350, 2456956037,
  2730485921, 2820302411, 3259730800, 3345764771, 3516065817,
  3600352804, 4094571909, 275423344, 430227734, 506948616,
  659060556, 883997877, 958139571, 1322822218, 1537002063,
  1747873779, 1955562222, 2024104815, 2227730452, 2361852424,
  2428436474, 2756734187, 3204031479, 3329325298]

/-- Eight 32-bit words of hash state. -/
abbrev HState := Nat × Nat × Nat × Nat × Nat × Nat × Nat × Nat

/-- The SHA-256 initial hash value. -/
def H256 : HState :=
  (1779033703, 3144134277, 1013904242, 2773480762,
   1359893119, 2600822924, 528734635, 1541459225)

/-- Big-endian word from four bytes of the block at offset `4*i`. -/
def blockWord (block : List Nat) (i : Nat) : Nat :=
  block.getD (4 * i) 0 <<< 24 ||| block.getD (4 * i + 1) 0 <<< 16 |||
  block.getD (4 * i + 2) 0 <<< 8 ||| block.getD (4 * i + 3) 0

/-- The 64-entry message schedule of one 64-byte block. -/
def schedule (block : List Nat) : Array Nat :=
  let w0 := ((List.range 16).map (blockWord block)).toArray
  (List.range 48).foldl
    (fun w j =>
      let i := j + 16
      w.push ((ssig1 (w.getD (i - 2) 0) + w.getD (i - 7) 0 +
               ssig0 (w.getD (i - 15) 0) + w.getD (i - 16) 0) % M32))
    w0

/-- One SHA-256 compression of a 64-byte block into the running state. -/
def compress (h : HState) (block : List Nat) : HState :=
  let w := schedule block
  let (a, b, c, d, e, f, g, hh) :=
    (List.range 64).foldl
      (fun (st : HState) i =>
        let (a, b, c, d, e, f, g, h) := st
        let t1 := (h + bsig1 e + ch32 e f g + K256.getD i 0 + w.getD i 0) % M32
        let t2 := (bsig0 a + maj32 a b c) % M32
        (add32 t1 t2, a, b, c, (d + t1) % M32, e, f, g))
      h
  (add32 h.1 a, add32 h.2.1 b, add32 h.2.2.1 c, add32 h.2.2.2.1 d,
   add32 h.2.2.2.2.1 e, add32 h.2.2.2.2.2.1 f, add32 h.2.2.2.2.2.2.1 g,
   add32 h.2.2.2.2.2.2.2 hh)

/-- The eight big-endian length bytes closing the SHA-256 padding. -/
def lenBytes (bitLen : Nat) : List Nat :=
  [bitLen >>> 56 % 256, bitLen >>> 48 % 256, bitLen >>> 40 % 256, bitLen >>> 32 % 256,
   bitLen >>> 24 % 256, bitLen >>> 16 % 256, bitLen >>> 8 % 256, bitLen % 256]

/-- SHA-256 message padding to a multiple of 64 bytes. -/
def padMessage (msg : List Nat) : List Nat :=
  msg ++ [0x80] ++ List.replicate ((119 - msg.length % 64) % 64) 0 ++ lenBytes (8 * msg.length)

/-- Split a byte list into 64-byte chunks. -/
def chunks64 : List Nat → List (List Nat)
  | [] => []
  | a :: l => (a :: l).take 64 :: chunks64 ((a :: l).drop 64)
termination_by l => l.length
decreasing_by simp [List.length_drop]; omega

/-- Big-endian bytes of a 32-bit word. -/
def wordBytes (w : Nat) : List Nat := [w >>> 24 % 256, w >>> 16 % 256, w >>> 8 % 256, w % 256]

/-- SHA-256 digest (32 bytes) of a byte list. -/
def sha256Bytes (msg : List Nat) : List Nat :=
  let s := (chunks64 (padMessage msg)).foldl compress H256
  wordBytes s.1 ++ wordBytes s.2.1 ++ wordBytes s.2.2.1 ++ wordBytes s.2.2.2.1 ++
  wordBytes s.2.2.2.2.1 ++ wordBytes s.2.2.2.2.2.1 ++ wordBytes s.2.2.2.2.2.2.1 ++
  wordBytes s.2.2.2.2.2.2.2

/-! ## HMAC (model of `hmac.new(key, msg, hashlib.sha256)`) and hex digests -/

/-- Lowercase hexadecimal digit. -/
def hexDigitChar (n : Nat) : Char :=
  if n < 10 then Char.ofNat (48 + n) else Char.ofNat (87 + n)

/-- Two lowercase hex characters of one byte. -/
def byteHex (b : Nat) : List Char := [hexDigitChar (b >>> 4 % 16), hexDigitChar (b % 16)]

/-- Lowercase hex string of a byte list (Python's `.hexdigest()`). -/
def hexdigest (bytes : List Nat) : String := String.mk (bytes.flatMap byteHex)

/-- UTF-8 bytes of one character (Python's `str.encode("utf-8")`). -/
def utf8Char (c : Char) : List Nat :=
  let n := c.toNat
  if n < 0x80 then [n]
  else if n < 0x800 then [0xC0 ||| (n >>> 6), 0x80 ||| (n &&& 0x3F)]
  else if n < 0x10000 then
    [0xE0 ||| (n >>> 12), 0x80 ||| ((n >>> 6) &&& 0x3F), 0x80 ||| (n &&& 0x3F)]
  else
    [0xF0 ||| (n >>> 18), 0x80 ||| ((n >>> 12) &&& 0x3F),
     0x80 ||| ((n >>> 6) &&& 0x3F), 0x80 ||| (n &&& 0x3F)]

/-- UTF-8 encoding of a string. -/
def utf8 (s : String) : List Nat := s.data.flatMap utf8Char

/-- HMAC-SHA256 digest bytes (64-byte block size, zero-padded key). -/
def hmacSha256 (key msg : List Nat) : List Nat :=
  let k0 := if 64 < key.length then sha256Bytes key else key
  let k := k0 ++ List.replicate (64 - k0.length) 0
  sha256Bytes ((k.map (· ^^^ 0x5C)) ++ sha256Bytes ((k.map (· ^^^ 0x36)) ++ msg))

/-! ## Token signing (`_sign` / `_verify` from `app.py`)

`ADMIN_SECRET` is a startup-time global in the source; it is passed here as the
`secret` argument. -/

/-- Model of `hmac.compare_digest` (equality; timing is not modelled). -/
def compare_digest (a b : String) : Bool := a == b

/-- `_sign(action, booking_id)`: HMAC-SHA256 hexdigest of `"{action}:{booking_id}"`,
or `""` when no secret is configured. -/
def _sign (secret action booking_id : String) : String :=
  if secret = "" then ""
  else hexdigest (hmacSha256 (utf8 secret) (utf8 (action ++ ":" ++ booking_id)))

/-- `_verify(action, booking_id, token)`: recompute and compare; `false` when no
secret is configured or the token is empty. -/
def _verify (secret action booking_id token : String) : Bool :=
  if secret = "" || token = "" then false
  else compare_digest (_sign secret action booking_id) token

/-! ## CSV ledger store (`leads.csv` helpers from `app.py`)

The persisted file is modelled as the list of its data rows (the header line is
written and skipped by every source function and is not part of the state). -/

def CSV_HEADER : List String :=
  ["booking_id", "timestamp_utc", "status", "name", "email", "phone",
   "service", "appointment_date", "appointment_time"]

/-- The dictionary produced by `_row_to_dict`. -/
structure BookingRec where
  booking_id : String
  timestamp_utc : String
  status : String
  name : String
  email : String
  phone : String
  service : String
  appointment_date : String
  appointment_time : String
deriving DecidableEq, Repr

/-- `_row_to_dict(row)`; the source indexes `row[0] .. row[8]`, which its caller
guarantees to exist, so out-of-range reads default to `""` here. -/
def _row_to_dict (row : List String) : BookingRec :=
  { booking_id := row.getD 0 "", timestamp_utc := row.getD 1 "", status := row.getD 2 "",
    name := row.getD 3 "", email := row.getD 4 "", phone := row.getD 5 "",
    service := row.getD 6 "", appointment_date := row.getD 7 "",
    appointment_time := row.getD 8 "" }

/-- Whether `read_all_leads` keeps a row: `if not row or len(row) < len(CSV_HEADER): continue`. -/
def keepRow (row : List String) : Bool :=
  !row.isEmpty && decide (CSV_HEADER.length ≤ row.length)

/-- `read_all_leads()`: every stored row that is nonempty and has all header
fields, as a dictionary, in stored order. -/
def read_all_leads (rows : List (List String)) : List BookingRec :=
  (rows.filter keepRow).map _row_to_dict

/-- Model of `uuid.uuid4()`: an injective enumeration of fresh identifiers,
driven by a creation counter threaded through the operational model. -/
def uuidOf (n : Nat) : String := String.mk (List.replicate (n + 1) 'u')

/-- `write_lead(status, lead)`: append one 9-field row, return its fresh id.
The `timestamp_utc` value (`datetime.utcnow().isoformat()`) is an input. -/
def write_lead (rows : List (List String)) (next : Nat)
    (status ts name email phone service date time : String) :
    String × List (List String) :=
  let booking_id := uuidOf next
  (booking_id, rows ++ [[booking_id, ts, status, name, email, phone, service, date, time]])

/-- `update_booking_status(booking_id, new_status)`: rewrite every nonempty row
whose first field is `booking_id` with its third field replaced (`row[2] =
new_status`; rows that match are assumed long enough for the assignment, as all
rows written by the app are).  Empty rows are dropped by the rewrite.  When no
row matches, the file is left untouched and `false` is returned. -/
def update_booking_status (rows : List (List String)) (booking_id new_status : String) :
    Bool × List (List String) :=
  let kept := rows.filter (fun row => !row.isEmpty)
  let found := kept.any (fun row => row.headD "" == booking_id)
  if found then
    (true, kept.map (fun row => if row.headD "" == booking_id then row.set 2 new_status else row))
  else
    (false, rows)

/-! ## Slot availability engine -/

def BOOKED_STATUSES : List String := ["confirmed"]

/-- First-occurrence deduplication, the behaviour of `dict.fromkeys`. -/
def pydedup (l : List String) : List String := go [] l where
  go (seen : List String) : List String → List String
    | [] => []
    | a :: l => if a ∈ seen then go seen l else a :: go (a :: seen) l

/-- Ascending sort, the behaviour of Python's `sorted` on strings. -/
def pysorted (l : List String) : List String := l.insertionSort (· ≤ ·)

/-- `list_taken_slots_for_date(date_str)`: times of confirmed bookings on the
date, deduplicated and sorted ascending. -/
def list_taken_slots_for_date (rows : List (List String)) (date_str : String) : List String :=
  pysorted (pydedup (((read_all_leads rows).filter
    (fun r => r.appointment_date == date_str && BOOKED_STATUSES.contains r.status)).map
      (fun r => r.appointment_time)))

/-- `list_pending_slots_for_date(date_str)`: times of pending bookings on the
date, deduplicated and sorted ascending. -/
def list_pending_slots_for_date (rows : List (List String)) (date_str : String) : List String :=
  pysorted (pydedup (((read_all_leads rows).filter
    (fun r => r.appointment_date == date_str && r.status == "pending")).map
      (fun r => r.appointment_time)))

/-! ## Booking state machine (route handlers) -/

/-- Outcome of `create_lead` (HTTP 409 with the taken list, or the saved lead). -/
inductive CreateResult where
  | Conflict (taken : List String)
  | Created (booking_id : String)
deriving DecidableEq, Repr

/-- Outcome of the confirm handlers. -/
inductive ConfirmResult where
  | InvalidToken
  | NotFound
  | AlreadyConfirmed
  | SlotConflict
  | Confirmed
deriving DecidableEq, Repr

/-- Outcome of the cancel handlers. -/
inductive CancelResult where
  | InvalidToken
  | NotFound
  | Cancelled
deriving DecidableEq, Repr

/-- `create_lead(lead)` (`POST /api/lead`), email side effects omitted. -/
def create_lead (rows : List (List String)) (next : Nat)
    (name email phone service date time ts : String) :
    CreateResult × List (List String) × Nat :=
  if (list_taken_slots_for_date rows date).contains time then
    (.Conflict (list_taken_slots_for_date rows date), rows, next)
  else
    (.Created (write_lead rows next "pending" ts name email phone service date time).1,
     (write_lead rows next "pending" ts name email phone service date time).2, next + 1)

/-- The conflict scan shared by both confirm handlers: some other booking with
the same slot is already confirmed. -/
def slotScan (leads : List BookingRec) (booking_id : String) (target : BookingRec) : Bool :=
  leads.any (fun r =>
    r.booking_id != booking_id &&
    r.appointment_date == target.appointment_date &&
    r.appointment_time == target.appointment_time &&
    r.status == "confirmed")

/-- `confirm_booking(booking_id, token)` (`GET /confirm/{booking_id}`),
HTML rendering omitted. -/
def confirm_booking (secret : String) (rows : List (List String)) (booking_id token : String) :
    ConfirmResult × List (List String) :=
  if !_verify secret "confirm" booking_id token then (.InvalidToken, rows)
  else
    match (read_all_leads rows).find? (fun r => r.booking_id == booking_id) with
    | none => (.NotFound, rows)
    | some target =>
      if target.status == "confirmed" then (.AlreadyConfirmed, rows)
      else if slotScan (read_all_leads rows) booking_id target then (.SlotConflict, rows)
      else if (update_booking_status rows booking_id "confirmed").1 then
        (.Confirmed, (update_booking_status rows booking_id "confirmed").2)
      else (.NotFound, (update_booking_status rows booking_id "confirmed").2)

/-- `api_confirm_booking(booking_id)` (`POST /api/confirm/{booking_id}`),
notification side effects omitted; the update's return value is ignored. -/
def api_confirm_booking (rows : List (List String)) (booking_id : String) :
    ConfirmResult × List (List String) :=
  match (read_all_leads rows).find? (fun r => r.booking_id == booking_id) with
  | none => (.NotFound, rows)
  | some target =>
    if target.status == "confirmed" then (.AlreadyConfirmed, rows)
    else if slotScan (read_all_leads rows) booking_id target then (.SlotConflict, rows)
    else (.Confirmed, (update_booking_status rows booking_id "confirmed").2)

/-- `cancel_booking(booking_id, token)` (`GET /cancel/{booking_id}`). -/
def cancel_booking (secret : String) (rows : List (List String)) (booking_id token : String) :
    CancelResult × List (List String) :=
  if !_verify secret "cancel" booking_id token then (.InvalidToken, rows)
  else if (update_booking_status rows booking_id "cancelled").1 then
    (.Cancelled, (update_booking_status rows booking_id "cancelled").2)
  else (.NotFound, (update_booking_status rows booking_id "cancelled").2)

/-- `api_cancel_booking(booking_id)` (`POST /api/cancel/{booking_id}`),
notification side effects omitted. -/
def api_cancel_booking (rows : List (List String)) (booking_id : String) :
    CancelResult × List (List String) :=
  if (update_booking_status rows booking_id "cancelled").1 then
    (.Cancelled, (update_booking_status rows booking_id "cancelled").2)
  else (.NotFound, (update_booking_status rows booking_id "cancelled").2)

/-! ## Operational model: finite sequences of create/confirm/cancel -/

/-- One booking-ledger operation. -/
inductive Op where
  | create (name email phone service date time ts : String)
  | confirm (booking_id : String)
  | cancel (booking_id : String)
deriving DecidableEq, Repr

/-- The ledger state: the CSV data rows plus the fresh-id counter. -/
structure LedgerState where
  rows : List (List String)
  next : Nat
deriving DecidableEq, Repr

/-- Execute one operation (the state change of the corresponding handler). -/
def step (st : LedgerState) (op : Op) : LedgerState :=
  match op with
  | .create name email phone service date time ts =>
    ⟨(create_lead st.rows st.next name email phone service date time ts).2.1,
     (create_lead st.rows st.next name email phone service date time ts).2.2⟩
  | .confirm booking_id => ⟨(api_confirm_booking st.rows booking_id).2, st.next⟩
  | .cancel booking_id => ⟨(api_cancel_booking st.rows booking_id).2, st.next⟩

/-- Run a sequence of operations from the empty ledger. -/
def run (ops : List Op) : LedgerState := ops.foldl step ⟨[], 0⟩

/-- Number of confirmed bookings stored for a slot. -/
def confirmedCount (rows : List (List String)) (d t : String) : Nat :=
  (read_all_leads rows).countP
    (fun r => r.status == "confirmed" && r.appointment_date == d && r.appointment_time == t)

/-- Every stored row's id comes from an already-consumed counter value. -/
def IdsBounded (rows : List (List String)) (next : Nat) : Prop :=
  ∀ row ∈ rows, ∃ m < next, row.headD "" = uuidOf m

/-- The stored rows have pairwise-distinct first fields (booking ids). -/
def NodupHeads (rows : List (List String)) : Prop :=
  (rows.map (fun row => row.headD "")).Nodup

/-- The central consistency invariant: at most one confirmed booking per slot. -/
def UniqueConfirmed (rows : List (List String)) : Prop :=
  ∀ d t, confirmedCount rows d t ≤ 1

/-- The reachable-state invariant of the operational model. -/
def Inv (st : LedgerState) : Prop :=
  IdsBounded st.rows st.next ∧ NodupHeads st.rows ∧ UniqueConfirmed st.rows

/-! ## Helper lemmas: signing -/

theorem length_flatMap_byteHex (l : List Nat) : (l.flatMap byteHex).length = 2 * l.length := by
  induction l with
  | nil => simp
  | cons a l ih => simp [byteHex, ih]; omega

theorem length_sha256Bytes (m : List Nat) : (sha256Bytes m).length = 32 := by
  simp [sha256Bytes, wordBytes]

theorem length_hmacSha256 (key msg : List Nat) : (hmacSha256 key msg).length = 32 := by
  simp [hmacSha256, length_sha256Bytes]

theorem sign_ne_empty {secret : String} (h : secret ≠ "") (action booking_id : String) :
    _sign secret action booking_id ≠ "" := by
  unfold _sign
  rw [if_neg h]
  intro hc
  have hd : (hexdigest (hmacSha256 (utf8 secret)
      (utf8 (action ++ ":" ++ booking_id)))).data.length = 0 := by
    rw [hc]; rfl
  rw [show (hexdigest (hmacSha256 (utf8 secret) (utf8 (action ++ ":" ++ booking_id)))).data =
      (hmacSha256 (utf8 secret) (utf8 (action ++ ":" ++ booking_id))).flatMap byteHex from rfl,
    length_flatMap_byteHex, length_hmacSha256] at hd
  omega

theorem verify_sign {secret : String} (h : secret ≠ "") (action booking_id : String) :
    _verify secret action booking_id (_sign secret action booking_id) = true := by
  simp [_verify, compare_digest, h, sign_ne_empty h action booking_id]

theorem verify_eq_true_iff (secret action booking_id token : String) :
    _verify secret action booking_id token = true ↔
      secret ≠ "" ∧ token ≠ "" ∧ token = _sign secret action booking_id := by
  unfold _verify compare_digest
  by_cases h1 : secret = ""
  · simp [h1]
  · by_cases h2 : token = ""
    · simp [h1, h2]
    · rw [if_neg (by simp [h1, h2]), beq_iff_eq]
      constructor
      · intro hs
        exact ⟨h1, h2, hs.symm⟩
      · intro hs
        exact hs.2.2.symm

/-! ## Helper lemmas: rows and records -/

theorem headD_eq_getD_zero (row : List String) : row.headD "" = row.getD 0 "" := by
  cases row <;> rfl

theorem booking_id_row_to_dict (row : List String) :
    (_row_to_dict row).booking_id = row.headD "" := by
  rw [headD_eq_getD_zero]; rfl

theorem keepRow_iff (row : List String) : keepRow row = true ↔ 9 ≤ row.length := by
  cases row with
  | nil => simp [keepRow, CSV_HEADER]
  | cons a t => simp [keepRow, CSV_HEADER]

theorem shape9 (row : List String) (h : 9 ≤ row.length) :
    ∃ a b c d e f g h' i rest,
      row = a :: b :: c :: d :: e :: f :: g :: h' :: i :: rest := by
  rcases row with _ | ⟨a, _ | ⟨b, _ | ⟨c, _ | ⟨d, _ | ⟨e, _ | ⟨f, _ | ⟨g, _ | ⟨h', _ | ⟨i, rest⟩⟩⟩⟩⟩⟩⟩⟩⟩
  all_goals first
    | exact ⟨_, _, _, _, _, _, _, _, _, _, rfl⟩
    | simp at h

theorem row_to_dict_set (row : List String) (h : 9 ≤ row.length) (s : String) :
    _row_to_dict (row.set 2 s) = { _row_to_dict row with status := s } := by
  obtain ⟨a, b, c, d, e, f, g, h', i, rest, rfl⟩ := shape9 row h
  rfl

theorem headD_set_two (row : List String) (s : String) :
    (row.set 2 s).headD "" = row.headD "" := by
  rcases row with _ | ⟨a, _ | ⟨b, t⟩⟩ <;> rfl

theorem keepRow_set_two (row : List String) (s : String) :
    keepRow (row.set 2 s) = keepRow row := by
  rw [Bool.eq_iff_iff, keepRow_iff, keepRow_iff, List.length_set]

/-! ## Helper lemmas: reading the store -/

theorem read_all_leads_append (rows1 rows2 : List (List String)) :
    read_all_leads (rows1 ++ rows2) = read_all_leads rows1 ++ read_all_leads rows2 := by
  simp [read_all_leads, List.filter_append]

/-- Members of `read_all_leads` come from kept rows. -/
theorem mem_read_all_leads {rows : List (List String)} {b : BookingRec}
    (h : b ∈ read_all_leads rows) :
    ∃ row ∈ rows, keepRow row = true ∧ b = _row_to_dict row := by
  unfold read_all_leads at h
  obtain ⟨row, hrow, rfl⟩ := List.mem_map.mp h
  exact ⟨row, (List.mem_filter.mp hrow).1, (List.mem_filter.mp hrow).2, rfl⟩

/-- The central store lemma: a status update reads back as a pointwise status
replacement on the parsed bookings (in both the found and not-found branches). -/
theorem read_all_update (rows : List (List String)) (id s : String) :
    read_all_leads (update_booking_status rows id s).2 =
      (read_all_leads rows).map
        (fun b => if b.booking_id == id then { b with status := s } else b) := by
  unfold update_booking_status
  by_cases hfound :
      (rows.filter (fun row => !row.isEmpty)).any (fun row => row.headD "" == id) = true
  · simp only [hfound, if_true]
    unfold read_all_leads
    rw [List.filter_map]
    have hfc : List.filter
        (keepRow ∘ fun row => if row.headD "" == id then row.set 2 s else row)
        (rows.filter (fun row => !row.isEmpty)) =
        List.filter keepRow (rows.filter (fun row => !row.isEmpty)) := by
      apply List.filter_congr
      intro row _
      simp only [Function.comp]
      split
      · exact keepRow_set_two row s
      · rfl
    rw [hfc, List.filter_filter]
    have hkk : List.filter (fun a => keepRow a && !a.isEmpty) rows =
        List.filter keepRow rows := by
      apply List.filter_congr
      intro row _
      cases hrow : row.isEmpty
      · simp [hrow]
      · have : row = [] := List.isEmpty_iff.mp hrow
        subst this
        simp [keepRow]
    rw [hkk, List.map_map, List.map_map]
    apply List.map_congr_left
    intro row hrow
    have h9 : 9 ≤ row.length := (keepRow_iff row).mp (List.mem_filter.mp hrow).2
    simp only [Function.comp]
    by_cases hid : (row.headD "" == id) = true
    · rw [if_pos hid, row_to_dict_set row h9 s,
        if_pos (show ((_row_to_dict row).booking_id == id) = true by
          rw [booking_id_row_to_dict]; exact hid)]
    · rw [if_neg hid,
        if_neg (show ¬((_row_to_dict row).booking_id == id) = true by
          rw [booking_id_row_to_dict]; exact hid)]
  · simp only [Bool.not_eq_true] at hfound
    simp only [hfound, Bool.false_eq_true, if_false]
    have : ∀ b ∈ read_all_leads rows,
        (if b.booking_id == id then { b with status := s } else b) = b := by
      intro b hb
      obtain ⟨row, hrowmem, hkeep, rfl⟩ := mem_read_all_leads hb
      have hne : ¬row.isEmpty := by
        have h9 := (keepRow_iff row).mp hkeep
        cases row
        · simp at h9
        · simp
      have hmem2 : row ∈ rows.filter (fun row => !row.isEmpty) := by
        rw [List.mem_filter]
        exact ⟨hrowmem, by simpa using hne⟩
      refine if_neg ?_
      rw [booking_id_row_to_dict]
      exact List.any_eq_false.mp hfound row hmem2
    rw [List.map_congr_left this]
    simp

/-! ## Helper lemmas: deduplication and sorting -/

theorem mem_pydedup_go (l : List String) :
    ∀ (seen : List String) (a : String), a ∈ pydedup.go seen l ↔ a ∈ l ∧ a ∉ seen := by
  induction l with
  | nil => intro seen a; simp [pydedup.go]
  | cons b l ih =>
    intro seen a
    unfold pydedup.go
    by_cases hb : b ∈ seen
    · rw [if_pos hb, ih]
      constructor
      · intro hx
        exact ⟨List.mem_cons_of_mem b hx.1, hx.2⟩
      · rintro ⟨hx, hns⟩
        rcases List.mem_cons.mp hx with rfl | hx
        · exact absurd hb hns
        · exact ⟨hx, hns⟩
    · rw [if_neg hb]
      constructor
      · intro hx
        rcases List.mem_cons.mp hx with rfl | hx
        · exact ⟨List.mem_cons_self a l, hb⟩
        · have := (ih (b :: seen) a).mp hx
          exact ⟨List.mem_cons_of_mem b this.1,
            fun hs => this.2 (List.mem_cons_of_mem b hs)⟩
      · rintro ⟨hx, hns⟩
        rcases List.mem_cons.mp hx with rfl | hx
        · exact List.mem_cons_self a _
        · by_cases hab : a = b
          · subst hab; exact List.mem_cons_self a _
          · exact List.mem_cons_of_mem b ((ih (b :: seen) a).mpr
              ⟨hx, fun hs => (List.mem_cons.mp hs).elim hab hns⟩)

theorem mem_pydedup (l : List String) (a : String) : a ∈ pydedup l ↔ a ∈ l := by
  rw [pydedup, mem_pydedup_go]
  simp

theorem nodup_pydedup_go (l : List String) :
    ∀ seen : List String, (pydedup.go seen l).Nodup := by
  induction l with
  | nil => intro seen; simp [pydedup.go]
  | cons b l ih =>
    intro seen
    unfold pydedup.go
    by_cases hb : b ∈ seen
    · rw [if_pos hb]; exact ih seen
    · rw [if_neg hb]
      refine List.Nodup.cons ?_ (ih (b :: seen))
      intro hmem
      exact ((mem_pydedup_go l (b :: seen) b).mp hmem).2 (List.mem_cons_self b seen)

theorem nodup_pydedup (l : List String) : (pydedup l).Nodup := nodup_pydedup_go l []

theorem mem_pysorted (l : List String) (a : String) : a ∈ pysorted l ↔ a ∈ l :=
  List.mem_insertionSort (· ≤ ·)

theorem sorted_pysorted (l : List String) : (pysorted l).Sorted (· ≤ ·) :=
  List.sorted_insertionSort (· ≤ ·) l

theorem nodup_pysorted (l : List String) (h : l.Nodup) : (pysorted l).Nodup :=
  ((List.perm_insertionSort (· ≤ ·) l).nodup_iff).mpr h

/-! ## Helper lemmas: counting -/

/-- If the keys of a list are distinct, at most one entry matches any key. -/
theorem countP_le_one_of_nodup_key {α β : Type} [BEq β] [LawfulBEq β]
    (f : α → β) (x : β) :
    ∀ l : List α, (l.map f).Nodup → l.countP (fun a => f a == x) ≤ 1 := by
  intro l
  induction l with
  | nil => intro _; simp
  | cons a l ih =>
    intro h
    rw [List.map_cons, List.nodup_cons] at h
    rw [List.countP_cons]
    by_cases ha : (f a == x) = true
    · have hfa : f a = x := by simpa using ha
      have hzero : l.countP (fun a => f a == x) = 0 := by
        rw [List.countP_eq_zero]
        intro b hb hbx
        exact h.1 (hfa ▸ (by simpa using hbx : f b = x) ▸ List.mem_map_of_mem f hb)
      rw [hzero]
      simp [ha]
    · simp only [ha, if_false]
      simpa using ih h.2

/-- The parsed bookings of a ledger with distinct row heads have distinct ids. -/
theorem nodup_parsed_ids {rows : List (List String)}
    (h : (rows.map (fun row => row.headD "")).Nodup) :
    ((read_all_leads rows).map (fun b => b.booking_id)).Nodup := by
  unfold read_all_leads
  rw [List.map_map]
  have heq : List.map ((fun b => b.booking_id) ∘ _row_to_dict) (rows.filter keepRow) =
      List.map (fun row => row.headD "") (rows.filter keepRow) := by
    apply List.map_congr_left
    intro row _
    exact booking_id_row_to_dict row
  rw [heq]
  exact ((rows.filter_sublist).map (fun row => row.headD "")).nodup h

/-- An injective model of `uuid.uuid4` freshness. -/
theorem uuidOf_inj {m n : Nat} (h : uuidOf m = uuidOf n) : m = n := by
  have := congrArg (fun s => s.data.length) h
  simpa [uuidOf] using this

/-! ## Helper lemmas: handler branch analysis -/

/-- A booking seen by `read_all_leads` is found by `update_booking_status`. -/
theorem update_found_of_parsed {rows : List (List String)} {b : BookingRec} {id : String}
    (hb : b ∈ read_all_leads rows) (hid : b.booking_id = id) (s : String) :
    (update_booking_status rows id s).1 = true := by
  obtain ⟨row, hrowmem, hkeep, rfl⟩ := mem_read_all_leads hb
  have hfound :
      ((rows.filter (fun row => !row.isEmpty)).any fun row => row.headD "" == id) = true := by
    rw [List.any_eq_true]
    refine ⟨row, ?_, ?_⟩
    · rw [List.mem_filter]
      refine ⟨hrowmem, ?_⟩
      have h9 := (keepRow_iff row).mp hkeep
      cases row
      · simp at h9
      · simp
    · rw [show row.headD "" = (_row_to_dict row).booking_id from (booking_id_row_to_dict row).symm,
        hid]
      simp
  simp only [update_booking_status, hfound, if_true]

theorem api_confirm_not_found {rows : List (List String)} {id : String}
    (h : (read_all_leads rows).find? (fun r => r.booking_id == id) = none) :
    api_confirm_booking rows id = (.NotFound, rows) := by
  unfold api_confirm_booking
  rw [h]

theorem api_confirm_already {rows : List (List String)} {id : String} {target : BookingRec}
    (hfind : (read_all_leads rows).find? (fun r => r.booking_id == id) = some target)
    (hc : target.status = "confirmed") :
    api_confirm_booking rows id = (.AlreadyConfirmed, rows) := by
  unfold api_confirm_booking
  rw [hfind]
  simp only [hc]
  rw [if_pos (by simp)]

theorem api_confirm_conflict {rows : List (List String)} {id : String} {target : BookingRec}
    (hfind : (read_all_leads rows).find? (fun r => r.booking_id == id) = some target)
    (hc : ¬target.status = "confirmed")
    (hs : slotScan (read_all_leads rows) id target = true) :
    api_confirm_booking rows id = (.SlotConflict, rows) := by
  unfold api_confirm_booking
  rw [hfind]
  dsimp only
  rw [if_neg (by simpa using hc), if_pos hs]

theorem api_confirm_go {rows : List (List String)} {id : String} {target : BookingRec}
    (hfind : (read_all_leads rows).find? (fun r => r.booking_id == id) = some target)
    (hc : ¬target.status = "confirmed")
    (hs : slotScan (read_all_leads rows) id target = false) :
    api_confirm_booking rows id = (.Confirmed, (update_booking_status rows id "confirmed").2) := by
  unfold api_confirm_booking
  rw [hfind]
  dsimp only
  rw [if_neg (by simpa using hc), if_neg (by simp [hs])]

/-- The two confirm handlers coincide once the signed link has been verified. -/
theorem confirm_booking_eq_api {secret : String} {rows : List (List String)}
    {booking_id token : String}
    (hver : _verify secret "confirm" booking_id token = true) :
    confirm_booking secret rows booking_id token = api_confirm_booking rows booking_id := by
  unfold confirm_booking api_confirm_booking
  rw [if_neg (by rw [hver]; simp)]
  cases hfind : (read_all_leads rows).find? (fun r => r.booking_id == booking_id) with
  | none => rfl
  | some target =>
    dsimp only
    by_cases hc : (target.status == "confirmed") = true
    · rw [if_pos hc, if_pos hc]
    · rw [if_neg hc, if_neg hc]
      by_cases hs : slotScan (read_all_leads rows) booking_id target = true
      · rw [if_pos hs, if_pos hs]
      · rw [if_neg hs, if_neg hs]
        have hok := update_found_of_parsed (List.mem_of_find?_eq_some hfind)
          (by simpa using List.find?_some hfind) "confirmed"
        rw [hok]
        simp

/-- On a `SlotConflict` outcome the confirm endpoint does not touch the store. -/
theorem api_confirm_slot_conflict_inv {rows : List (List String)} {id : String}
    (h : (api_confirm_booking rows id).1 = .SlotConflict) :
    api_confirm_booking rows id = (.SlotConflict, rows) := by
  cases hfind : (read_all_leads rows).find? (fun r => r.booking_id == id) with
  | none => rw [api_confirm_not_found hfind] at h; simp at h
  | some target =>
    by_cases hc : target.status = "confirmed"
    · rw [api_confirm_already hfind hc] at h; simp at h
    · by_cases hs : slotScan (read_all_leads rows) id target = true
      · exact api_confirm_conflict hfind hc hs
      · rw [api_confirm_go hfind hc (by simpa using hs)] at h; simp at h

/-- The cancel endpoint's resulting store is always the status rewrite. -/
theorem api_cancel_state (rows : List (List String)) (id : String) :
    (api_cancel_booking rows id).2 = (update_booking_status rows id "cancelled").2 := by
  unfold api_cancel_booking
  split <;> rfl

/-- The two cancel handlers coincide once the signed link has been verified. -/
theorem cancel_booking_eq_api {secret : String} {rows : List (List String)}
    {booking_id token : String}
    (hver : _verify secret "cancel" booking_id token = true) :
    cancel_booking secret rows booking_id token = api_cancel_booking rows booking_id := by
  unfold cancel_booking api_cancel_booking
  rw [if_neg (by rw [hver]; simp)]

/-- `getD` with default `[]` commutes with mapping a `[]`-preserving function. -/
theorem getD_map_nil (f : List String → List String) (hf : f [] = [])
    (l : List (List String)) (i : Nat) :
    (l.map f).getD i [] = f (l.getD i []) := by
  induction l generalizing i with
  | nil => simp [hf]
  | cons a l ih =>
    cases i with
    | zero => simp
    | succ j => simpa using ih j

/-! ## Claim C9 -/

/-- C9: for every ledger state and booking id, once the signed confirm link has
been verified, the admin confirm endpoint (`POST /api/confirm/{booking_id}`)
and the signed-link confirm handler (`GET /confirm/{booking_id}`) make the same
decision (NotFound / AlreadyConfirmed / SlotConflict / Confirmed) and leave the
ledger in the same resulting state. -/
theorem C9_confirm_handlers_equivalent (secret : String) (rows : List (List String))
    (booking_id token : String)
    (hver : _verify secret "confirm" booking_id token = true) :
    confirm_booking secret rows booking_id token = api_confirm_booking rows booking_id :=
  confirm_booking_eq_api hver

theorem C9_confirm_handlers_equivalent_witness :
    _verify "s" "confirm" "u" (_sign "s" "confirm" "u") = true ∧
    confirm_booking "s" [["u", "ts", "pending", "n", "e", "p", "sv", "2025-10-13", "14:30"]]
        "u" (_sign "s" "confirm" "u") =
      api_confirm_booking [["u", "ts", "pending", "n", "e", "p", "sv", "2025-10-13", "14:30"]]
        "u" :=
  ⟨verify_sign (by decide) "confirm" "u",
   C9_confirm_handlers_equivalent "s"
     [["u", "ts", "pending", "n", "e", "p", "sv", "2025-10-13", "14:30"]] "u"
     (_sign "s" "confirm" "u") (verify_sign (by decide) "confirm" "u")⟩

/-! ## Claim C3 -/

/-- C3: whenever `confirm` returns `SlotConflict`, the entire ledger content is
unchanged by the call; in particular the target record keeps its `pending`
status. -/
theorem C3_slot_conflict_preserves_ledger (secret : String) (rows : List (List String))
    (booking_id token : String)
    (hres : (confirm_booking secret rows booking_id token).1 = .SlotConflict) :
    (confirm_booking secret rows booking_id token).2 = rows ∧
    (∀ b ∈ read_all_leads rows, b.booking_id = booking_id → b.status = "pending" →
      b ∈ read_all_leads (confirm_booking secret rows booking_id token).2 ∧
      b.status = "pending") := by
  by_cases hver : _verify secret "confirm" booking_id token = true
  · rw [confirm_booking_eq_api hver] at hres ⊢
    rw [api_confirm_slot_conflict_inv hres]
    exact ⟨rfl, fun b hb _ hs => ⟨hb, hs⟩⟩
  · have hv' : _verify secret "confirm" booking_id token = false := by
      revert hver
      cases _verify secret "confirm" booking_id token <;> simp
    unfold confirm_booking at hres
    rw [if_pos (by rw [hv']; rfl)] at hres
    simp at hres

theorem C3_slot_conflict_preserves_ledger_witness :
    (confirm_booking "s"
        [["u", "ts", "pending", "n", "e", "p", "sv", "2025-10-13", "14:30"],
         ["v", "ts", "confirmed", "m", "e", "p", "sv", "2025-10-13", "14:30"]]
        "u" (_sign "s" "confirm" "u")).1 = .SlotConflict ∧
    (confirm_booking "s"
        [["u", "ts", "pending", "n", "e", "p", "sv", "2025-10-13", "14:30"],
         ["v", "ts", "confirmed", "m", "e", "p", "sv", "2025-10-13", "14:30"]]
        "u" (_sign "s" "confirm" "u")).2 =
      [["u", "ts", "pending", "n", "e", "p", "sv", "2025-10-13", "14:30"],
       ["v", "ts", "confirmed", "m", "e", "p", "sv", "2025-10-13", "14:30"]] := by
  have hres : (confirm_booking "s"
      [["u", "ts", "pending", "n", "e", "p", "sv", "2025-10-13", "14:30"],
       ["v", "ts", "confirmed", "m", "e", "p", "sv", "2025-10-13", "14:30"]]
      "u" (_sign "s" "confirm" "u")).1 = .SlotConflict := by
    rw [confirm_booking_eq_api (verify_sign (by decide) "confirm" "u")]
    decide
  exact ⟨hres, (C3_slot_conflict_preserves_ledger "s" _ "u" _ hres).1⟩

/-! ## Claim C6 -/

/-- C6 counterexample: on a store whose second record is missing its trailing
`appointment_time` field, `readAll` omits that record entirely — it is not
returned padded with an empty default as the claim states. -/
theorem C6_short_row_omitted_cex :
    read_all_leads [["id1", "ts", "pending", "n", "e", "p", "sv", "2025-10-13", "14:30"],
                    ["id2", "ts", "pending", "n", "e", "p", "sv", "2025-10-13"]] =
      [{ booking_id := "id1", timestamp_utc := "ts", status := "pending", name := "n",
         email := "e", phone := "p", service := "sv", appointment_date := "2025-10-13",
         appointment_time := "14:30" }] ∧
    ¬∃ b ∈ read_all_leads
        [["id1", "ts", "pending", "n", "e", "p", "sv", "2025-10-13", "14:30"],
         ["id2", "ts", "pending", "n", "e", "p", "sv", "2025-10-13"]],
      b.booking_id = "id2" := by
  constructor
  · rfl
  · decide

/-- C6 amended: `readAll` is tolerant of records missing trailing fields by
*skipping* them — a short record is omitted from the result (the read neither
fails nor pads the missing fields). -/
theorem C6_amended_short_rows_skipped (rows1 rows2 : List (List String))
    (short : List String) (h : short.length < CSV_HEADER.length) :
    read_all_leads (rows1 ++ short :: rows2) = read_all_leads (rows1 ++ rows2) := by
  unfold read_all_leads
  rw [List.filter_append, List.filter_append, List.filter_cons]
  have hk : keepRow short = false := by
    cases hkr : keepRow short
    · rfl
    · exfalso
      have h9 := (keepRow_iff short).mp hkr
      simp only [CSV_HEADER] at h
      simp at h
      omega
  simp [hk]

theorem C6_amended_short_rows_skipped_witness :
    read_all_leads [["id1", "ts", "pending", "n", "e", "p", "sv", "2025-10-13", "14:30"],
                    ["id2", "ts", "pending", "n", "e", "p", "sv", "2025-10-13"]] =
      read_all_leads [["id1", "ts", "pending", "n", "e", "p", "sv", "2025-10-13", "14:30"]] :=
  C6_amended_short_rows_skipped
    [["id1", "ts", "pending", "n", "e", "p", "sv", "2025-10-13", "14:30"]] []
    ["id2", "ts", "pending", "n", "e", "p", "sv", "2025-10-13"] (by decide)

/-! ## Claim C10 -/

/-- C10: `updateStatus` changes only the status field of records whose
`booking_id` equals the target id: matching records get exactly `row[2]`
replaced, every other record is unchanged, and position-by-position
correspondence (hence relative order and count) is preserved. -/
theorem C10_update_status_frame (rows : List (List String)) (id s : String)
    (hrows : ∀ row ∈ rows, row ≠ []) :
    (update_booking_status rows id s).2.length = rows.length ∧
    ∀ i : Nat,
      ((rows.getD i []).headD "" ≠ id →
        (update_booking_status rows id s).2.getD i [] = rows.getD i []) ∧
      ((rows.getD i []).headD "" = id →
        (update_booking_status rows id s).2.getD i [] = (rows.getD i []).set 2 s) ∧
      (∀ j : Nat, j ≠ 2 →
        ((rows.getD i []).set 2 s).getD j "" = (rows.getD i []).getD j "") := by
  have hset : ∀ (row : List String) (j : Nat), j ≠ 2 →
      (row.set 2 s).getD j "" = row.getD j "" := by
    intro row j hj
    rw [List.getD_eq_getElem?_getD, List.getD_eq_getElem?_getD,
      List.getElem?_set_ne (by omega)]
  have hkept : rows.filter (fun row => !row.isEmpty) = rows := by
    rw [List.filter_eq_self]
    intro row hrow
    simpa using hrows row hrow
  unfold update_booking_status
  rw [hkept]
  by_cases hfound : (rows.any fun row => row.headD "" == id) = true
  · rw [if_pos hfound]
    refine ⟨by simp, fun i => ⟨?_, ?_, fun j hj => hset _ j hj⟩⟩
    · intro hne
      rw [getD_map_nil _ (by simp) rows i]
      rw [if_neg (by simpa using hne)]
    · intro heq
      rw [getD_map_nil _ (by simp) rows i]
      rw [if_pos (by simpa using heq)]
  · rw [if_neg hfound]
    refine ⟨rfl, fun i => ⟨fun _ => rfl, ?_, fun j hj => hset _ j hj⟩⟩
    intro heq
    by_cases hi : i < rows.length
    · exfalso
      have hfound' : (rows.any fun row => row.headD "" == id) = false := by
        revert hfound
        cases rows.any fun row => row.headD "" == id <;> simp
      have hmem : rows.getD i [] ∈ rows := by
        rw [List.getD_eq_getElem rows [] hi]
        exact List.getElem_mem hi
      exact absurd (by simpa using heq)
        (List.any_eq_false.mp hfound' (rows.getD i []) hmem)
    · show rows.getD i [] = (rows.getD i []).set 2 s
      have hnil : rows.getD i [] = [] := by
        rw [List.getD_eq_getElem?_getD, List.getElem?_eq_none (by omega)]
        rfl
      rw [hnil]
      rfl

theorem C10_update_status_frame_witness :
    (update_booking_status
        [["u", "ts", "pending", "n", "e", "p", "sv", "2025-10-13", "14:30"],
         ["v", "ts", "pending", "m", "e", "p", "sv", "2025-10-13", "15:30"]] "u" "confirmed").2 =
      [["u", "ts", "confirmed", "n", "e", "p", "sv", "2025-10-13", "14:30"],
       ["v", "ts", "pending", "m", "e", "p", "sv", "2025-10-13", "15:30"]] ∧
    ((update_booking_status
        [["u", "ts", "pending", "n", "e", "p", "sv", "2025-10-13", "14:30"],
         ["v", "ts", "pending", "m", "e", "p", "sv", "2025-10-13", "15:30"]] "u" "confirmed").2.getD
      1 [] =
      ["v", "ts", "pending", "m", "e", "p", "sv", "2025-10-13", "15:30"]) := by
  constructor
  · decide
  · exact (C10_update_status_frame
      [["u", "ts", "pending", "n", "e", "p", "sv", "2025-10-13", "14:30"],
       ["v", "ts", "pending", "m", "e", "p", "sv", "2025-10-13", "15:30"]] "u" "confirmed"
      (by decide)).2 1 |>.1 (by decide)

/-! ## Claim C7 -/

/-- Membership in the taken-slot list. -/
theorem mem_taken_iff (rows : List (List String)) (d t : String) :
    t ∈ list_taken_slots_for_date rows d ↔
      ∃ b ∈ read_all_leads rows, b.appointment_date = d ∧ b.status = "confirmed" ∧
        b.appointment_time = t := by
  unfold list_taken_slots_for_date
  rw [mem_pysorted, mem_pydedup, List.mem_map]
  constructor
  · rintro ⟨b, hb, rfl⟩
    rw [List.mem_filter] at hb
    have hc := hb.2
    simp [BOOKED_STATUSES] at hc
    exact ⟨b, hb.1, hc.1, hc.2, rfl⟩
  · rintro ⟨b, hb, hd, hs, ht⟩
    exact ⟨b, List.mem_filter.mpr ⟨hb, by simp [BOOKED_STATUSES, hd, hs]⟩, ht⟩

/-- Membership in the pending-slot list. -/
theorem mem_pending_iff (rows : List (List String)) (d t : String) :
    t ∈ list_pending_slots_for_date rows d ↔
      ∃ b ∈ read_all_leads rows, b.appointment_date = d ∧ b.status = "pending" ∧
        b.appointment_time = t := by
  unfold list_pending_slots_for_date
  rw [mem_pysorted, mem_pydedup, List.mem_map]
  constructor
  · rintro ⟨b, hb, rfl⟩
    rw [List.mem_filter] at hb
    have hc := hb.2
    simp at hc
    exact ⟨b, hb.1, hc.1, hc.2, rfl⟩
  · rintro ⟨b, hb, hd, hs, ht⟩
    exact ⟨b, List.mem_filter.mpr ⟨hb, by simp [hd, hs]⟩, ht⟩

/-- C7: `takenSlots(date)` is the sorted-ascending, duplicate-free list of
appointment times of confirmed bookings on the date, `pendingSlots(date)`
likewise for pending bookings (both are pure functions of the store), and a
slot all of whose bookings are pending never appears in `takenSlots`. -/
theorem C7_slot_lists_sorted_dedup (rows : List (List String)) (d : String) :
    ((list_taken_slots_for_date rows d).Sorted (· ≤ ·) ∧
     (list_taken_slots_for_date rows d).Nodup ∧
     (∀ t, t ∈ list_taken_slots_for_date rows d ↔
        ∃ b ∈ read_all_leads rows, b.appointment_date = d ∧ b.status = "confirmed" ∧
          b.appointment_time = t)) ∧
    ((list_pending_slots_for_date rows d).Sorted (· ≤ ·) ∧
     (list_pending_slots_for_date rows d).Nodup ∧
     (∀ t, t ∈ list_pending_slots_for_date rows d ↔
        ∃ b ∈ read_all_leads rows, b.appointment_date = d ∧ b.status = "pending" ∧
          b.appointment_time = t)) ∧
    (∀ t, (∀ b ∈ read_all_leads rows, b.appointment_date = d → b.appointment_time = t →
            b.status = "pending") →
      t ∉ list_taken_slots_for_date rows d) := by
  refine ⟨⟨sorted_pysorted _, nodup_pysorted _ (nodup_pydedup _), mem_taken_iff rows d⟩,
    ⟨sorted_pysorted _, nodup_pysorted _ (nodup_pydedup _), mem_pending_iff rows d⟩, ?_⟩
  intro t hall ht
  obtain ⟨b, hb, hd, hs, htime⟩ := (mem_taken_iff rows d t).mp ht
  have := hall b hb hd htime
  rw [hs] at this
  exact absurd this (by decide)

/-! ## Claim C2 -/

/-- The status rewrite of a confirm does not change a booking's id. -/
theorem g_booking_id (b : BookingRec) (id s : String) :
    ((if b.booking_id == id then { b with status := s } else b) : BookingRec).booking_id =
      b.booking_id := by
  split <;> rfl

/-- C2: the AlreadyConfirmed check precedes the conflict scan, and the scan
excludes the target id, so confirming the same booking twice (no competing
confirmed record for its slot) yields `Confirmed` then `AlreadyConfirmed`, the
second call changes nothing, and the stored status is `confirmed` after both
calls. -/
theorem C2_confirm_idempotent (secret : String) (rows : List (List String))
    (booking_id token : String) (target : BookingRec)
    (hver : _verify secret "confirm" booking_id token = true)
    (hfind : (read_all_leads rows).find? (fun r => r.booking_id == booking_id) = some target)
    (hnc : ¬target.status = "confirmed")
    (hscan : slotScan (read_all_leads rows) booking_id target = false) :
    (confirm_booking secret rows booking_id token).1 = .Confirmed ∧
    (confirm_booking secret (confirm_booking secret rows booking_id token).2
        booking_id token).1 = .AlreadyConfirmed ∧
    (confirm_booking secret (confirm_booking secret rows booking_id token).2
        booking_id token).2 = (confirm_booking secret rows booking_id token).2 ∧
    ∀ b ∈ read_all_leads (confirm_booking secret rows booking_id token).2,
      b.booking_id = booking_id → b.status = "confirmed" := by
  have h1 : confirm_booking secret rows booking_id token =
      (.Confirmed, (update_booking_status rows booking_id "confirmed").2) := by
    rw [confirm_booking_eq_api hver]
    exact api_confirm_go hfind hnc hscan
  have hrows2 : read_all_leads (confirm_booking secret rows booking_id token).2 =
      (read_all_leads rows).map
        (fun b => if b.booking_id == booking_id then { b with status := "confirmed" }
          else b) := by
    rw [h1]
    exact read_all_update rows booking_id "confirmed"
  have hfind2 : (read_all_leads (confirm_booking secret rows booking_id token).2).find?
      (fun r => r.booking_id == booking_id) = some { target with status := "confirmed" } := by
    rw [hrows2, List.find?_map]
    have hcomp : ((fun r : BookingRec => r.booking_id == booking_id) ∘
        (fun b => if b.booking_id == booking_id then { b with status := "confirmed" }
          else b)) = fun r : BookingRec => r.booking_id == booking_id := by
      funext b
      show (((if b.booking_id == booking_id then { b with status := "confirmed" }
        else b) : BookingRec).booking_id == booking_id) = (b.booking_id == booking_id)
      rw [g_booking_id]
    rw [hcomp, hfind]
    show some (if target.booking_id == booking_id then { target with status := "confirmed" }
      else target) = some { target with status := "confirmed" }
    rw [if_pos (List.find?_some hfind)]
  have h2 : confirm_booking secret (confirm_booking secret rows booking_id token).2
      booking_id token =
      (.AlreadyConfirmed, (confirm_booking secret rows booking_id token).2) := by
    rw [confirm_booking_eq_api hver]
    exact api_confirm_already hfind2 rfl
  refine ⟨by rw [h1], by rw [h2], by rw [h2], ?_⟩
  intro b hb hbid
  rw [hrows2] at hb
  obtain ⟨b0, hb0, rfl⟩ := List.mem_map.mp hb
  have hbid0 : b0.booking_id = booking_id := by
    rw [← g_booking_id b0 booking_id "confirmed"]
    exact hbid
  rw [if_pos (by simpa using hbid0)]

theorem C2_confirm_idempotent_witness :
    (confirm_booking "s" [["u", "ts", "pending", "n", "e", "p", "sv", "2025-10-13", "14:30"]]
        "u" (_sign "s" "confirm" "u")).1 = .Confirmed ∧
    (confirm_booking "s"
        (confirm_booking "s" [["u", "ts", "pending", "n", "e", "p", "sv", "2025-10-13", "14:30"]]
          "u" (_sign "s" "confirm" "u")).2 "u" (_sign "s" "confirm" "u")).1 =
      .AlreadyConfirmed := by
  have h := C2_confirm_idempotent "s"
    [["u", "ts", "pending", "n", "e", "p", "sv", "2025-10-13", "14:30"]] "u"
    (_sign "s" "confirm" "u")
    { booking_id := "u", timestamp_utc := "ts", status := "pending", name := "n", email := "e",
      phone := "p", service := "sv", appointment_date := "2025-10-13",
      appointment_time := "14:30" }
    (verify_sign (by decide) "confirm" "u") (by decide) (by decide) (by decide)
  exact ⟨h.1, h.2.1⟩

/-! ## Claim C4 -/

/-- C4: `create` refuses with `Conflict` carrying the current taken-slot list
and writes no record when the requested time is already confirmed; otherwise it
appends exactly one new `pending` record and returns its fresh booking id. -/
theorem C4_create_conflict_or_append (rows : List (List String)) (next : Nat)
    (name email phone service date time ts : String) :
    (time ∈ list_taken_slots_for_date rows date →
      create_lead rows next name email phone service date time ts =
        (.Conflict (list_taken_slots_for_date rows date), rows, next)) ∧
    (time ∉ list_taken_slots_for_date rows date →
      create_lead rows next name email phone service date time ts =
        (.Created (uuidOf next),
         rows ++ [[uuidOf next, ts, "pending", name, email, phone, service, date, time]],
         next + 1) ∧
      read_all_leads (create_lead rows next name email phone service date time ts).2.1 =
        read_all_leads rows ++
          [{ booking_id := uuidOf next, timestamp_utc := ts, status := "pending",
             name := name, email := email, phone := phone, service := service,
             appointment_date := date, appointment_time := time }] ∧
      ((∀ row ∈ rows, ∃ m < next, row.headD "" = uuidOf m) →
        ∀ b ∈ read_all_leads rows, b.booking_id ≠ uuidOf next)) := by
  constructor
  · intro h
    unfold create_lead
    rw [if_pos (by simpa using h)]
  · intro h
    have hq : create_lead rows next name email phone service date time ts =
        (.Created (uuidOf next),
         rows ++ [[uuidOf next, ts, "pending", name, email, phone, service, date, time]],
         next + 1) := by
      unfold create_lead write_lead
      rw [if_neg (by simpa using h)]
    refine ⟨hq, ?_, ?_⟩
    · rw [hq]
      show read_all_leads
          (rows ++ [[uuidOf next, ts, "pending", name, email, phone, service, date, time]]) = _
      rw [read_all_leads_append]
      rfl
    · intro hbound b hb heq
      obtain ⟨row, hrowmem, hkeep, rfl⟩ := mem_read_all_leads hb
      obtain ⟨m, hm, hhead⟩ := hbound row hrowmem
      rw [booking_id_row_to_dict, hhead] at heq
      exact absurd (uuidOf_inj heq) (by omega)

theorem C4_create_conflict_or_append_witness :
    create_lead [["u", "ts", "confirmed", "n", "e", "p", "sv", "2025-10-13", "14:30"]] 1
        "n2" "e2" "p2" "sv" "2025-10-13" "14:30" "ts2" =
      (.Conflict ["14:30"],
       [["u", "ts", "confirmed", "n", "e", "p", "sv", "2025-10-13", "14:30"]], 1) ∧
    create_lead [] 0 "n" "e" "p" "sv" "2025-10-13" "14:30" "ts" =
      (.Created (uuidOf 0),
       [[uuidOf 0, "ts", "pending", "n", "e", "p", "sv", "2025-10-13", "14:30"]], 1) := by
  constructor
  · have h := (C4_create_conflict_or_append
      [["u", "ts", "confirmed", "n", "e", "p", "sv", "2025-10-13", "14:30"]] 1
      "n2" "e2" "p2" "sv" "2025-10-13" "14:30" "ts2").1 (by decide)
    rw [h]
    decide
  · exact ((C4_create_conflict_or_append [] 0
      "n" "e" "p" "sv" "2025-10-13" "14:30" "ts").2 (by decide)).1

/-! ## Claim C8 -/

/-- Appending a character changes a string. -/
theorem append_x_ne (s : String) : s ++ "x" ≠ s := by
  intro h
  have hlen := congrArg String.length h
  rw [String.length_append] at hlen
  have hx : ("x" : String).length = 1 := rfl
  omega

/-- C8 counterexample: `_sign` frames the message as `action + ":" + booking_id`,
so the distinct pairs (`"confirm"`, `"x:y"`) and (`"confirm:x"`, `"y"`) share the
same framed message and hence the same token: verifying with an action and
booking id different from the ones signed can succeed. -/
theorem C8_colon_injection_cex :
    ("confirm" ≠ "confirm:x" ∧ ("x:y" : String) ≠ "y") ∧
    _verify "k" "confirm" "x:y" (_sign "k" "confirm:x" "y") = true := by
  refine ⟨by decide, ?_⟩
  have hmsg : ("confirm" ++ ":" ++ "x:y" : String) = "confirm:x" ++ ":" ++ "y" := by decide
  have hsig : _sign "k" "confirm" "x:y" = _sign "k" "confirm:x" "y" := by
    unfold _sign
    rw [if_neg (by decide), if_neg (by decide), hmsg]
  rw [show _sign "k" "confirm:x" "y" = _sign "k" "confirm" "x:y" from hsig.symm]
  exact verify_sign (by decide) "confirm" "x:y"

/-- C8 amended: with a non-empty secret, `verify(action, id, sign(action, id))`
is true; `verify` is false on the token with an extra character appended, on an
empty token, and when no secret is configured; and `verify` accepts exactly the
token `sign(action, id)` — so a differing action or booking id is rejected
precisely when it changes the expected token (distinct pairs whose framed
messages `action:booking_id` coincide share tokens and are accepted). -/
theorem C8_amended_sign_verify (secret action booking_id token : String) :
    (secret ≠ "" → _verify secret action booking_id (_sign secret action booking_id) = true) ∧
    _verify secret action booking_id (_sign secret action booking_id ++ "x") = false ∧
    _verify secret action booking_id "" = false ∧
    _verify "" action booking_id token = false ∧
    (_verify secret action booking_id token = true →
      token = _sign secret action booking_id) := by
  refine ⟨fun h => verify_sign h action booking_id, ?_, by simp [_verify], by simp [_verify],
    fun h => ((verify_eq_true_iff secret action booking_id token).mp h).2.2⟩
  by_cases h1 : secret = ""
  · simp [_verify, h1]
  · have hne : _sign secret action booking_id ++ "x" ≠ "" := by
      intro hc
      have := congrArg String.length hc
      rw [String.length_append] at this
      have hx : ("x" : String).length = 1 := rfl
      have h0 : ("" : String).length = 0 := rfl
      omega
    unfold _verify compare_digest
    rw [if_neg (by simp [h1, hne])]
    rw [beq_eq_false_iff_ne]
    intro hc
    exact append_x_ne (_sign secret action booking_id) hc.symm

theorem C8_amended_sign_verify_witness :
    _verify "k" "confirm" "b7" (_sign "k" "confirm" "b7") = true ∧
    _verify "" "confirm" "b7" "tok" = false := by
  have h := C8_amended_sign_verify "k" "confirm" "b7" "tok"
  exact ⟨h.1 (by decide), h.2.2.2.1⟩

/-! ## Claim C5 -/

/-- C5 counterexample: `cancelled` is not terminal. Starting from the empty
ledger, create → cancel → confirm leaves the booking `confirmed`: the confirm
handler only guards on `status == "confirmed"` and on slot conflicts, so it
happily re-confirms a cancelled booking. -/
theorem C5_cancelled_reconfirmed_cex :
    (read_all_leads (run [.create "n" "e" "p" "sv" "2025-10-13" "14:30" "ts",
        .cancel (uuidOf 0)]).rows).map (fun b => b.status) = ["cancelled"] ∧
    (read_all_leads (run [.create "n" "e" "p" "sv" "2025-10-13" "14:30" "ts",
        .cancel (uuidOf 0), .confirm (uuidOf 0)]).rows).map (fun b => b.status) =
      ["confirmed"] := by
  constructor
  · decide
  · decide

/-- C5 amended: a cancelled booking is never changed by any `cancel` call (its
status remains `cancelled`, including when it is the target again), and a
`confirm` call targeting a *different* booking id leaves it untouched; but
`confirm` on the cancelled booking itself is unguarded and can set its status
back to `confirmed` (see the counterexample). -/
theorem C5_amended_cancelled_transitions (rows : List (List String)) (id : String) :
    read_all_leads ((api_cancel_booking rows id).2) =
      (read_all_leads rows).map
        (fun b => if b.booking_id == id then { b with status := "cancelled" } else b) ∧
    (∀ b ∈ read_all_leads rows, b.status = "cancelled" →
      ((if b.booking_id == id then { b with status := "cancelled" } else b) :
          BookingRec).status = "cancelled") ∧
    (∀ b ∈ read_all_leads rows, b.booking_id ≠ id →
      b ∈ read_all_leads ((api_confirm_booking rows id).2)) := by
  refine ⟨?_, ?_, ?_⟩
  · rw [api_cancel_state]
    exact read_all_update rows id "cancelled"
  · intro b _ hs
    split
    · rfl
    · exact hs
  · intro b hb hbne
    cases hfind : (read_all_leads rows).find? (fun r => r.booking_id == id) with
    | none => rw [api_confirm_not_found hfind]; exact hb
    | some target =>
      by_cases hc : target.status = "confirmed"
      · rw [api_confirm_already hfind hc]; exact hb
      · by_cases hscan : slotScan (read_all_leads rows) id target = true
        · rw [api_confirm_conflict hfind hc hscan]; exact hb
        · rw [api_confirm_go hfind hc (by simpa using hscan)]
          show b ∈ read_all_leads (update_booking_status rows id "confirmed").2
          rw [read_all_update]
          refine List.mem_map.mpr ⟨b, hb, ?_⟩
          rw [if_neg (by simpa using hbne)]

theorem C5_amended_cancelled_transitions_witness :
    ({ booking_id := "v", timestamp_utc := "ts", status := "cancelled", name := "m",
       email := "e", phone := "p", service := "sv", appointment_date := "2025-10-13",
       appointment_time := "15:30" } : BookingRec) ∈
      read_all_leads ((api_confirm_booking
        [["u", "ts", "pending", "n", "e", "p", "sv", "2025-10-13", "14:30"],
         ["v", "ts", "cancelled", "m", "e", "p", "sv", "2025-10-13", "15:30"]] "u").2) :=
  (C5_amended_cancelled_transitions
    [["u", "ts", "pending", "n", "e", "p", "sv", "2025-10-13", "14:30"],
     ["v", "ts", "cancelled", "m", "e", "p", "sv", "2025-10-13", "15:30"]] "u").2.2
    { booking_id := "v", timestamp_utc := "ts", status := "cancelled", name := "m",
      email := "e", phone := "p", service := "sv", appointment_date := "2025-10-13",
      appointment_time := "15:30" } (by decide) (by decide)

/-! ## Claim C1: the uniqueness invariant -/

theorem Inv_mk (rows : List (List String)) (next : Nat) :
    Inv ⟨rows, next⟩ ↔ IdsBounded rows next ∧ NodupHeads rows ∧ UniqueConfirmed rows :=
  Iff.rfl

/-- The heads (ids) of the store after an update form a sublist of the old heads. -/
theorem heads_update_sublist (rows : List (List String)) (id s : String) :
    (((update_booking_status rows id s).2).map (fun row => row.headD "")).Sublist
      (rows.map (fun row => row.headD "")) := by
  unfold update_booking_status
  by_cases hfound :
      ((rows.filter (fun row => !row.isEmpty)).any fun row => row.headD "" == id) = true
  · rw [if_pos hfound]
    dsimp only
    rw [List.map_map]
    have hmc : List.map ((fun row => row.headD "") ∘ fun row =>
        if row.headD "" == id then row.set 2 s else row)
        (rows.filter fun row => !row.isEmpty) =
        List.map (fun row => row.headD "") (rows.filter fun row => !row.isEmpty) := by
      apply List.map_congr_left
      intro row _
      simp only [Function.comp]
      split
      · exact headD_set_two row s
      · rfl
    rw [hmc]
    exact (List.filter_sublist rows).map _
  · rw [if_neg hfound]

/-- Every row of an updated store shares its id with some original row. -/
theorem mem_update_heads {rows : List (List String)} {id s : String} {row2 : List String}
    (h : row2 ∈ (update_booking_status rows id s).2) :
    ∃ row ∈ rows, row2.headD "" = row.headD "" := by
  unfold update_booking_status at h
  by_cases hfound :
      ((rows.filter (fun row => !row.isEmpty)).any fun row => row.headD "" == id) = true
  · rw [if_pos hfound] at h
    dsimp only at h
    obtain ⟨row, hrow, rfl⟩ := List.mem_map.mp h
    refine ⟨row, (List.mem_filter.mp hrow).1, ?_⟩
    split
    · exact headD_set_two row s
    · rfl
  · rw [if_neg hfound] at h
    exact ⟨row2, h, rfl⟩

theorem NodupHeads_update {rows : List (List String)} (id s : String)
    (h : NodupHeads rows) : NodupHeads (update_booking_status rows id s).2 :=
  (heads_update_sublist rows id s).nodup h

theorem IdsBounded_update {rows : List (List String)} {next : Nat} (id s : String)
    (h : IdsBounded rows next) : IdsBounded (update_booking_status rows id s).2 next := by
  intro row2 hrow2
  obtain ⟨row, hrow, heq⟩ := mem_update_heads hrow2
  obtain ⟨m, hm, hhead⟩ := h row hrow
  exact ⟨m, hm, heq.trans hhead⟩

/-- The confirm endpoint either leaves the store alone or performs the status
update. -/
theorem api_confirm_state_cases (rows : List (List String)) (id : String) :
    (api_confirm_booking rows id).2 = rows ∨
    (api_confirm_booking rows id).2 = (update_booking_status rows id "confirmed").2 := by
  cases hfind : (read_all_leads rows).find? (fun r => r.booking_id == id) with
  | none => rw [api_confirm_not_found hfind]; exact Or.inl rfl
  | some target =>
    by_cases hc : target.status = "confirmed"
    · rw [api_confirm_already hfind hc]; exact Or.inl rfl
    · by_cases hscan : slotScan (read_all_leads rows) id target = true
      · rw [api_confirm_conflict hfind hc hscan]; exact Or.inl rfl
      · rw [api_confirm_go hfind hc (by simpa using hscan)]; exact Or.inr rfl

/-- Cancelling never increases a slot's confirmed count. -/
theorem confirmedCount_cancel_le (rows : List (List String)) (id d t : String) :
    confirmedCount (update_booking_status rows id "cancelled").2 d t ≤
      confirmedCount rows d t := by
  unfold confirmedCount
  rw [read_all_update, List.countP_map]
  apply List.countP_mono_left
  intro b _ hpb
  simp only [Function.comp] at hpb
  by_cases hid : (b.booking_id == id) = true
  · rw [if_pos hid] at hpb
    simp at hpb
  · rwa [if_neg hid] at hpb

/-- The key preservation lemma: after any confirm call on a store with distinct
ids and at most one confirmed booking per slot, every slot still has at most
one confirmed booking. -/
theorem confirmedCount_confirm_le_one (rows : List (List String)) (id : String)
    (hnodup : NodupHeads rows) (hUC : UniqueConfirmed rows) (d t : String) :
    confirmedCount (api_confirm_booking rows id).2 d t ≤ 1 := by
  cases hfind : (read_all_leads rows).find? (fun r => r.booking_id == id) with
  | none => rw [api_confirm_not_found hfind]; exact hUC d t
  | some target =>
    by_cases hc : target.status = "confirmed"
    · rw [api_confirm_already hfind hc]; exact hUC d t
    · by_cases hscan : slotScan (read_all_leads rows) id target = true
      · rw [api_confirm_conflict hfind hc hscan]; exact hUC d t
      · rw [api_confirm_go hfind hc (by simpa using hscan)]
        show confirmedCount (update_booking_status rows id "confirmed").2 d t ≤ 1
        have hids : ((read_all_leads rows).map (fun b => b.booking_id)).Nodup :=
          nodup_parsed_ids hnodup
        have htmem : target ∈ read_all_leads rows := List.mem_of_find?_eq_some hfind
        have htid : target.booking_id = id := by simpa using List.find?_some hfind
        have hscan' : ∀ b ∈ read_all_leads rows, ¬b.booking_id = id →
            b.appointment_date = target.appointment_date →
            b.appointment_time = target.appointment_time → ¬b.status = "confirmed" := by
          intro b hb h1 h2 h3 h4
          apply hscan
          rw [slotScan, List.any_eq_true]
          refine ⟨b, hb, ?_⟩
          simp [bne_iff_ne, h1, h2, h3, h4]
        unfold confirmedCount
        rw [read_all_update, List.countP_map]
        by_cases hslot : target.appointment_date = d ∧ target.appointment_time = t
        · refine le_trans (List.countP_mono_left ?_)
            (countP_le_one_of_nodup_key (fun b => b.booking_id) id _ hids)
          intro b hb hpb
          simp only [Function.comp] at hpb
          by_cases hid : (b.booking_id == id) = true
          · exact hid
          · exfalso
            rw [if_neg hid] at hpb
            rw [Bool.and_eq_true, Bool.and_eq_true] at hpb
            obtain ⟨⟨hst, hda⟩, hti⟩ := hpb
            rw [beq_iff_eq] at hst hda hti
            exact hscan' b hb (by simpa using hid) (hda.trans hslot.1.symm)
              (hti.trans hslot.2.symm) hst
        · refine le_trans (List.countP_mono_left ?_) (hUC d t)
          intro b hb hpb
          simp only [Function.comp] at hpb
          by_cases hid : (b.booking_id == id) = true
          · exfalso
            rw [if_pos hid] at hpb
            rw [Bool.and_eq_true, Bool.and_eq_true] at hpb
            obtain ⟨⟨_, hda⟩, hti⟩ := hpb
            rw [beq_iff_eq] at hda hti
            have hbt : b = target :=
              List.inj_on_of_nodup_map hids hb htmem
                (by rw [htid]; simpa using hid)
            exact hslot ⟨by rw [← hbt]; exact hda, by rw [← hbt]; exact hti⟩
          · rwa [if_neg hid] at hpb

/-- Appending a full 9-field row appends exactly one parsed booking. -/
theorem read_all_append_full (rows : List (List String))
    (a0 a1 a2 a3 a4 a5 a6 a7 a8 : String) :
    read_all_leads (rows ++ [[a0, a1, a2, a3, a4, a5, a6, a7, a8]]) =
      read_all_leads rows ++ [_row_to_dict [a0, a1, a2, a3, a4, a5, a6, a7, a8]] := by
  rw [read_all_leads_append]
  rfl

/-- Every operation preserves the reachable-state invariant. -/
theorem Inv_step (st : LedgerState) (op : Op) (h : Inv st) : Inv (step st op) := by
  obtain ⟨hIds, hNodup, hUC⟩ := h
  cases op with
  | create name email phone service date time ts =>
    show Inv ⟨(create_lead st.rows st.next name email phone service date time ts).2.1,
      (create_lead st.rows st.next name email phone service date time ts).2.2⟩
    by_cases htaken : time ∈ list_taken_slots_for_date st.rows date
    · have hq : create_lead st.rows st.next name email phone service date time ts =
          (.Conflict (list_taken_slots_for_date st.rows date), st.rows, st.next) := by
        unfold create_lead
        rw [if_pos (by simpa using htaken)]
      rw [hq]
      exact ⟨hIds, hNodup, hUC⟩
    · have hq : create_lead st.rows st.next name email phone service date time ts =
          (.Created (uuidOf st.next),
           st.rows ++ [[uuidOf st.next, ts, "pending", name, email, phone, service, date, time]],
           st.next + 1) := by
        unfold create_lead write_lead
        rw [if_neg (by simpa using htaken)]
      rw [hq]
      dsimp only
      rw [Inv_mk]
      refine ⟨?_, ?_, ?_⟩
      · intro row hrow
        rcases List.mem_append.mp hrow with hold | hnew
        · obtain ⟨m, hm, hh⟩ := hIds row hold
          exact ⟨m, by omega, hh⟩
        · rw [List.mem_singleton] at hnew
          subst hnew
          exact ⟨st.next, by omega, rfl⟩
      · unfold NodupHeads
        rw [List.map_append, List.nodup_append]
        refine ⟨hNodup, by simp, ?_⟩
        intro a ha hb
        simp at hb
        obtain ⟨row, hrow, rfl⟩ := List.mem_map.mp ha
        obtain ⟨m, hm, hh⟩ := hIds row hrow
        rw [hh] at hb
        exact absurd (uuidOf_inj hb) (by omega)
      · intro d t
        unfold confirmedCount
        rw [read_all_append_full, List.countP_append]
        have hz : List.countP
            (fun r => r.status == "confirmed" && r.appointment_date == d &&
              r.appointment_time == t)
            [_row_to_dict
              [uuidOf st.next, ts, "pending", name, email, phone, service, date, time]] = 0 := by
          simp [List.countP_cons, _row_to_dict]
        rw [hz]
        have hold := hUC d t
        unfold confirmedCount at hold
        omega
  | confirm id =>
    show Inv ⟨(api_confirm_booking st.rows id).2, st.next⟩
    rw [Inv_mk]
    rcases api_confirm_state_cases st.rows id with hcase | hcase
    · exact ⟨by rw [hcase]; exact hIds, by rw [hcase]; exact hNodup,
        fun d t => confirmedCount_confirm_le_one st.rows id hNodup hUC d t⟩
    · exact ⟨by rw [hcase]; exact IdsBounded_update id "confirmed" hIds,
        by rw [hcase]; exact NodupHeads_update id "confirmed" hNodup,
        fun d t => confirmedCount_confirm_le_one st.rows id hNodup hUC d t⟩
  | cancel id =>
    show Inv ⟨(api_cancel_booking st.rows id).2, st.next⟩
    rw [Inv_mk]
    refine ⟨?_, ?_, ?_⟩
    · rw [api_cancel_state]
      exact IdsBounded_update id "cancelled" hIds
    · rw [api_cancel_state]
      exact NodupHeads_update id "cancelled" hNodup
    · intro d t
      rw [api_cancel_state]
      exact le_trans (confirmedCount_cancel_le st.rows id d t) (hUC d t)

/-- Every state reached from the empty ledger satisfies the invariant. -/
theorem Inv_run (ops : List Op) : Inv (run ops) := by
  have hinit : Inv ⟨[], 0⟩ := by
    rw [Inv_mk]
    refine ⟨?_, ?_, ?_⟩
    · intro row hrow
      simp at hrow
    · unfold NodupHeads
      simp
    · intro d t
      unfold confirmedCount read_all_leads
      simp
  suffices hstep : ∀ (ops : List Op) (st : LedgerState), Inv st → Inv (ops.foldl step st) from
    hstep ops ⟨[], 0⟩ hinit
  intro ops
  induction ops with
  | nil => intro st h; exact h
  | cons op ops ih =>
    intro st h
    exact ih _ (Inv_step st op h)

/-- C1: starting from the empty ledger, after any finite sequence of
create/confirm/cancel operations executed sequentially, for every
appointment_date and appointment_time there is at most one stored booking with
status `confirmed` for that slot. -/
theorem C1_unique_confirmed_invariant (ops : List Op) (d t : String) :
    confirmedCount (run ops).rows d t ≤ 1 :=
  (Inv_run ops).2.2 d t

end Nexa
